import Mathlib

/-!
# MyFinance double-entry ledger: a shallow embedding

This file embeds the core of the MyFinance schema and its commit-time
validation logic:

* the `transactions` (header) and `transaction_entries` (line) tables,
  restricted to the columns read by the validation trigger, the cascade
  rule, and the row-level-security policies (`id`, `company_id`,
  `transaction_id`, `account_id`, `amount`); timestamps and the purely
  descriptive header columns (dates, status, description, recurrence)
  are carried by none of the validated logic and are omitted;
* the trigger function `validate_transaction_entries` and the deferred
  row-level constraint trigger `validate_transaction_entries_trigger`:
  every insert/update/delete of a `transaction_entries` row queues one
  deferred event recording the header id to validate
  (`NEW.transaction_id` for insert/update, `OLD.transaction_id` for
  delete); all queued events fire at commit, in order, each aggregating
  `SUM(amount)` and `COUNT(*)` over the then-current rows of that
  header; the first raised exception aborts and rolls back the whole
  ambient transaction;
* the `ON DELETE CASCADE` foreign key from entries to headers (a header
  delete removes its entries, and each cascaded entry delete queues a
  deferred DELETE event);
* the row-level-security layer for `transaction_entries`: the
  `has_role` helper over `user_roles`, the single policy
  "Company members manage transaction entries" (declared RESTRICTIVE),
  and PostgreSQL's combination rule (a row is accessible iff some
  permissive policy passes and every restrictive policy passes).

Monetary amounts (`numeric` in the schema, unconstrained in scale) are
modelled as rationals.
-/

/-- One row of `public.transactions` (the transaction header), restricted
to the columns the validated core reads. -/
structure TransactionRow where
  id : Nat
  companyId : Nat
deriving Repr, DecidableEq

/-- One row of `public.transaction_entries` (a ledger line):
`id`, `transaction_id`, `company_id` (denormalized tenant id, no foreign
key to the header's company), `account_id`, and the signed `amount`. -/
structure EntryRow where
  id : Nat
  txId : Nat
  companyId : Nat
  accountId : Nat
  amount : Rat
deriving Repr, DecidableEq

/-- The persisted database state relevant to the ledger core. -/
structure DB where
  transactions : List TransactionRow
  transaction_entries : List EntryRow
deriving Repr, DecidableEq

/-- The empty database. -/
def DB.empty : DB := ⟨[], []⟩

/-- The rows of `transaction_entries` with `transaction_id = txId`
(the `WHERE transaction_id = v_tx_id` filter of the trigger function). -/
def entriesOf (db : DB) (txId : Nat) : List EntryRow :=
  db.transaction_entries.filter (fun e => e.txId == txId)

/-- `SELECT COALESCE(SUM(amount), 0) FROM transaction_entries WHERE
transaction_id = txId`. -/
def sumAmounts (db : DB) (txId : Nat) : Rat :=
  ((entriesOf db txId).map (fun e => e.amount)).sum

/-- `SELECT COUNT(*) FROM transaction_entries WHERE transaction_id = txId`. -/
def countEntries (db : DB) (txId : Nat) : Nat :=
  (entriesOf db txId).length

/-- The message of `RAISE EXCEPTION` when the line count is below two. -/
def msgTooFewLines : String :=
  "Cada lançamento deve ter pelo menos duas linhas (débito e crédito)"

/-- The message of `RAISE EXCEPTION` when the amounts do not sum to zero. -/
def msgUnbalanced : String :=
  "Soma dos valores das linhas do lançamento deve ser igual a zero"

/-- The body of `public.validate_transaction_entries()` once the header id
has been extracted from NEW/OLD: aggregate sum and count over the current
rows of that header, raise (return `some message`) if the count is below 2,
then if the sum is nonzero; otherwise succeed. -/
def validate_transaction_entries (db : DB) (txId : Nat) : Option String :=
  if countEntries db txId < 2 then some msgTooFewLines
  else if sumAmounts db txId ≠ 0 then some msgUnbalanced
  else none

/-- One SQL write statement against the two tables of the core. A
statement-level `DELETE ... WHERE transaction_id = t` and the cascade of a
header delete affect several rows; per-row ops affect at most one row
(primary keys are generated `uuid`s, assumed unique). -/
inductive Op where
  /-- `INSERT INTO transactions` (header columns beyond id/company are not
  modelled). -/
  | insertHeader (h : TransactionRow)
  /-- `DELETE FROM transactions WHERE id = hid`: cascades to the header's
  entries through the `ON DELETE CASCADE` foreign key. -/
  | deleteHeader (hid : Nat)
  /-- `INSERT INTO transaction_entries`. -/
  | insertEntry (e : EntryRow)
  /-- `UPDATE transaction_entries SET transaction_id, company_id,
  account_id, amount WHERE id = eid`. -/
  | updateEntry (eid : Nat) (txId companyId accountId : Nat) (amount : Rat)
  /-- `DELETE FROM transaction_entries WHERE id = eid`. -/
  | deleteEntry (eid : Nat)
  /-- `DELETE FROM transaction_entries WHERE transaction_id = txId`
  (the app's replace-all-lines and delete workflows). -/
  | deleteEntriesOfTx (txId : Nat)
deriving Repr, DecidableEq

/-- Apply one statement to the state; also return the deferred trigger
events it queues. `validate_transaction_entries_trigger` is
`AFTER INSERT OR UPDATE OR DELETE ... DEFERRABLE INITIALLY DEFERRED
FOR EACH ROW`, so each affected `transaction_entries` row queues one
event; the trigger function reads `NEW.transaction_id` on INSERT/UPDATE
and `OLD.transaction_id` on DELETE, so an event is just the header id to
validate at commit. Header writes queue no event (the trigger is on
`transaction_entries` only), but a cascaded entry delete does. -/
def applyOp (db : DB) : Op → DB × List Nat
  | .insertHeader h =>
      ({ db with transactions := db.transactions ++ [h] }, [])
  | .deleteHeader hid =>
      let cascaded := db.transaction_entries.filter (fun e => e.txId == hid)
      ({ transactions := db.transactions.filter (fun h => h.id != hid),
         transaction_entries := db.transaction_entries.filter (fun e => e.txId != hid) },
       cascaded.map (fun e => e.txId))
  | .insertEntry e =>
      ({ db with transaction_entries := db.transaction_entries ++ [e] }, [e.txId])
  | .updateEntry eid t c a amt =>
      let matched := db.transaction_entries.filter (fun e => e.id == eid)
      ({ db with transaction_entries := db.transaction_entries.map (fun e =>
          if e.id == eid then { id := e.id, txId := t, companyId := c, accountId := a, amount := amt } else e) },
       matched.map (fun _ => t))
  | .deleteEntry eid =>
      let matched := db.transaction_entries.filter (fun e => e.id == eid)
      ({ db with transaction_entries := db.transaction_entries.filter (fun e => e.id != eid) },
       matched.map (fun e => e.txId))
  | .deleteEntriesOfTx t =>
      let matched := db.transaction_entries.filter (fun e => e.txId == t)
      ({ db with transaction_entries := db.transaction_entries.filter (fun e => e.txId != t) },
       matched.map (fun e => e.txId))

/-- Apply the statements of one ambient transaction in issued order,
concatenating the deferred events each queues. -/
def applyOps (db : DB) : List Op → DB × List Nat
  | [] => (db, [])
  | op :: ops =>
      let r1 := applyOp db op
      let r2 := applyOps r1.1 ops
      (r2.1, r1.2 ++ r2.2)

/-- Fire the queued deferred events at commit, in queue order, each
running `validate_transaction_entries` against the final state; the first
exception aborts the commit. -/
def fireEvents (db : DB) : List Nat → Option String
  | [] => none
  | t :: ts =>
      match validate_transaction_entries db t with
      | some m => some m
      | none => fireEvents db ts

/-- Run one ambient transaction: apply all statements, then fire the
deferred constraint-trigger events against the final state. An exception
aborts the transaction (`Except.error` with the raised message); otherwise
the final state commits. -/
def runTransaction (db : DB) (ops : List Op) : Except String DB :=
  match fireEvents (applyOps db ops).1 (applyOps db ops).2 with
  | some m => Except.error m
  | none => Except.ok (applyOps db ops).1

/-- The committed state after the ambient transaction: its final state on
success, the unchanged prior state on abort (all writes rolled back). -/
def commitState (db : DB) (ops : List Op) : DB :=
  match runTransaction db ops with
  | Except.ok db' => db'
  | Except.error _ => db

/-- `true` iff the ambient transaction commits. -/
def commitsOk (db : DB) (ops : List Op) : Bool :=
  match runTransaction db ops with
  | Except.ok _ => true
  | Except.error _ => false

/-- The committed states reachable from the empty database by sequences
of ambient transactions over the modelled write surface. -/
inductive Reachable : DB → Prop where
  | init : Reachable DB.empty
  | step (db : DB) (ops : List Op) : Reachable db → Reachable (commitState db ops)

/-- The spec's core contract: every header with at least one entry has
entry amounts summing to zero and at least two entries. -/
def balancedInvariant (db : DB) : Prop :=
  ∀ h ∈ db.transactions,
    1 ≤ countEntries db h.id → (sumAmounts db h.id = 0 ∧ 2 ≤ countEntries db h.id)

instance (db : DB) : Decidable (balancedInvariant db) := by
  unfold balancedInvariant; infer_instance

/-! ## Row-level security for `transaction_entries`

The access layer, from the migrations: `app_role`, `company_users`,
`user_roles`, `has_role`, and the single policy on `transaction_entries`
("Company members manage transaction entries", declared `AS RESTRICTIVE`,
`FOR ALL`, with identical `USING` and `WITH CHECK` expressions).
PostgreSQL grants a row iff at least one permissive policy passes and
every restrictive policy passes. -/

/-- `public.app_role`. -/
inductive AppRole where
  | admin
  | collaborator
  | accountant
deriving Repr, DecidableEq

/-- One row of `public.company_users` (tenant membership with a role). -/
structure CompanyUserRow where
  companyId : Nat
  userId : Nat
  role : AppRole
deriving Repr, DecidableEq

/-- One row of `public.user_roles` (a global role grant). -/
structure UserRoleRow where
  userId : Nat
  role : AppRole
deriving Repr, DecidableEq

/-- The tables the access rule reads. -/
structure AccessDB where
  company_users : List CompanyUserRow
  user_roles : List UserRoleRow
deriving Repr, DecidableEq

/-- `public.has_role(_user_id, _role)`: a `user_roles` row exists for the
user with that role. -/
def has_role (s : AccessDB) (userId : Nat) (role : AppRole) : Bool :=
  s.user_roles.any (fun ur => ur.userId == userId && ur.role == role)

/-- The `USING`/`WITH CHECK` expression of the policy "Company members
manage transaction entries": a `company_users` row links `auth.uid()` to
the entry row's `company_id` (any role). -/
def companyMembersManageEntries (s : AccessDB) (userId companyId : Nat) : Bool :=
  s.company_users.any (fun cu => cu.companyId == companyId && cu.userId == userId)

/-- PostgreSQL's combination of row-level-security policies: a row passes
iff at least one PERMISSIVE policy passes and every RESTRICTIVE policy
passes (an empty permissive set therefore denies the row). -/
def rlsAllows (permissive restrictive : List Bool) : Bool :=
  permissive.any (fun b => b) && restrictive.all (fun b => b)

/-- The effective row-level decision for a `transaction_entries` row: the
table's only policy is the one above, declared `AS RESTRICTIVE` and
`FOR ALL` (so it guards select, insert, update and delete alike); no
permissive policy exists for the table. -/
def transaction_entries_access (s : AccessDB) (userId companyId : Nat) : Bool :=
  rlsAllows [] [companyMembersManageEntries s userId companyId]

/-- The access decision as the spec words it (for comparison with the
code's decision): membership in the row's tenant with any role, or the
global admin capability. -/
def canAccess_spec (s : AccessDB) (userId companyId : Nat) : Bool :=
  companyMembersManageEntries s userId companyId || has_role s userId AppRole.admin

/-- The create path of the transactions page's `onSubmit`
(`src/App.tsx`): insert one header whose `company_id` is the current
company, then insert the signed lines in one statement, each line
carrying `transaction_id` = the new header's id and `company_id` = the
same current company (the client supplies the tenant id for both; the
schema itself has no constraint tying the two `company_id`s together).
A line is (account id, signed amount); entry ids stand in for the
generated uuid primary keys. -/
def onSubmitCreateOps (company hid : Nat) (lines : List (Nat × Rat)) : List Op :=
  Op.insertHeader { id := hid, companyId := company } ::
    (lines.enum.map (fun p => Op.insertEntry
      { id := p.1, txId := hid, companyId := company,
        accountId := p.2.1, amount := p.2.2 }))

/-! ## Helper lemmas about the deferred event queue -/

lemma fireEvents_cons (db : DB) (t : Nat) (ts : List Nat) :
    fireEvents db (t :: ts) =
      match validate_transaction_entries db t with
      | some m => some m
      | none => fireEvents db ts := rfl

/-- All queued events pass iff every event's header passes against the
final state. -/
lemma fireEvents_eq_none_iff (db : DB) (l : List Nat) :
    fireEvents db l = none ↔
      ∀ t ∈ l, validate_transaction_entries db t = none := by
  induction l with
  | nil => simp [fireEvents]
  | cons t ts ih =>
    cases h : validate_transaction_entries db t with
    | none => simp [fireEvents_cons, h, ih]
    | some m =>
      simp only [fireEvents_cons, h]
      constructor
      · intro hc; cases hc
      · intro hall
        have ht := hall t (List.mem_cons_self t ts)
        rw [h] at ht; cases ht

/-- When every queued event names the same header, firing the queue is the
single check of that header against the final state. -/
lemma fireEvents_const (db : DB) (H : Nat) (l : List Nat) (hne : l ≠ [])
    (hall : ∀ t ∈ l, t = H) :
    fireEvents db l = validate_transaction_entries db H := by
  induction l with
  | nil => cases hne rfl
  | cons t ts ih =>
    have ht : t = H := hall t (List.mem_cons_self t ts)
    subst ht
    cases h : validate_transaction_entries db t with
    | some m => simp [fireEvents_cons, h]
    | none =>
      cases ts with
      | nil => simp [fireEvents, fireEvents_cons, h]
      | cons u us =>
        have h2 := ih (by simp) (fun x hx => hall x (List.mem_cons_of_mem _ hx))
        rw [h] at h2
        simp [fireEvents_cons, h, h2]

/-- A single-header event queue passes iff it is empty or the header's
final state passes. -/
lemma fireEvents_none_iff_of_const (db : DB) (H : Nat) (l : List Nat)
    (hall : ∀ t ∈ l, t = H) :
    fireEvents db l = none ↔
      (l = [] ∨ validate_transaction_entries db H = none) := by
  cases l with
  | nil => simp [fireEvents]
  | cons t ts =>
    rw [fireEvents_const db H _ (by simp) hall]
    simp

lemma applyOps_cons (db : DB) (op : Op) (ops : List Op) :
    applyOps db (op :: ops) =
      ((applyOps (applyOp db op).1 ops).1,
       (applyOp db op).2 ++ (applyOps (applyOp db op).1 ops).2) := rfl

/-- A run of entry inserts appends the rows and queues one event per row,
each carrying the inserted row's `transaction_id`. -/
lemma applyOps_inserts (db : DB) (l : List EntryRow) :
    applyOps db (l.map Op.insertEntry) =
      ({ db with transaction_entries := db.transaction_entries ++ l },
       l.map (fun e => e.txId)) := by
  induction l generalizing db with
  | nil => simp [applyOps]
  | cons e t ih =>
    simp only [List.map_cons, applyOps_cons, applyOp, ih]
    simp [List.append_assoc]

/-- Deleted-then-reinserted filter composition: nothing with the header's
id survives the statement-level delete. -/
lemma filter_ne_then_eq (l : List EntryRow) (H : Nat) :
    (l.filter (fun e => e.txId != H)).filter (fun e => e.txId == H) = [] := by
  induction l with
  | nil => rfl
  | cons e t ih =>
    by_cases h : e.txId = H
    · simp [List.filter_cons, h, ih]
    · simp [List.filter_cons, h, ih]

/-- If the ambient transaction touched only header `H`'s lines and `H`'s
final state is balanced with at least two lines, the deferred check passes
and the transaction commits its final state. -/
lemma commit_allowed_of_final_balance (db : DB) (ops : List Op) (H : Nat)
    (hall : ∀ t ∈ (applyOps db ops).2, t = H)
    (hsum : sumAmounts (applyOps db ops).1 H = 0)
    (hcnt : 2 ≤ countEntries (applyOps db ops).1 H) :
    validate_transaction_entries (applyOps db ops).1 H = none ∧
    runTransaction db ops = Except.ok (applyOps db ops).1 := by
  have hv : validate_transaction_entries (applyOps db ops).1 H = none := by
    simp [validate_transaction_entries, Nat.not_lt.mpr hcnt, hsum]
  have hfire : fireEvents (applyOps db ops).1 (applyOps db ops).2 = none :=
    (fireEvents_eq_none_iff _ _).mpr (fun t ht => by rw [hall t ht]; exact hv)
  exact ⟨hv, by simp [runTransaction, hfire]⟩

/-- C4: for every set of lines written for a header within one ambient
transaction, if the final amounts sum to exactly zero (exact equality on
the rationals, no epsilon) and the final line count is at least 2, the
commit-time balance check raises no violation and the commit is allowed. -/
theorem c4_balanced_commit_allowed (db : DB) (ops : List Op) (H : Nat)
    (hall : ∀ t ∈ (applyOps db ops).2, t = H)
    (hsum : sumAmounts (applyOps db ops).1 H = 0)
    (hcnt : 2 ≤ countEntries (applyOps db ops).1 H) :
    validate_transaction_entries (applyOps db ops).1 H = none ∧
    runTransaction db ops = Except.ok (applyOps db ops).1 :=
  commit_allowed_of_final_balance db ops H hall hsum hcnt

/-- Witness for C4: inserting header 1 with two lines +100 and −100
satisfies the hypotheses and commits. -/
theorem c4_balanced_commit_allowed_witness :
    runTransaction DB.empty
        [Op.insertHeader ⟨1, 1⟩, Op.insertEntry ⟨1, 1, 1, 1, 100⟩,
         Op.insertEntry ⟨2, 1, 1, 2, -100⟩] =
      Except.ok (applyOps DB.empty
        [Op.insertHeader ⟨1, 1⟩, Op.insertEntry ⟨1, 1, 1, 1, 100⟩,
         Op.insertEntry ⟨2, 1, 1, 2, -100⟩]).1 :=
  (c4_balanced_commit_allowed DB.empty
    [Op.insertHeader ⟨1, 1⟩, Op.insertEntry ⟨1, 1, 1, 1, 100⟩,
     Op.insertEntry ⟨2, 1, 1, 2, -100⟩] 1
    (by norm_num [applyOps, applyOp, DB.empty])
    (by norm_num [applyOps, applyOp, DB.empty, sumAmounts, entriesOf])
    (by norm_num [applyOps, applyOp, DB.empty, countEntries, entriesOf])).2

/-- C3: at commit of an ambient transaction that wrote a header's lines
(every queued deferred event names that header, and at least one row was
written): if the header's final line count is below 2 the commit is
rejected with the too-few-lines exception regardless of the sum; if the
final count is at least 2 and the final sum is nonzero it is rejected
with the unbalanced exception; and on either rejection the committed
state is the prior state — none of the transaction's writes (entries and
header changes alike) persist. -/
theorem c3_commit_rejection_and_rollback (db : DB) (ops : List Op) (H : Nat)
    (hne : (applyOps db ops).2 ≠ [])
    (hall : ∀ t ∈ (applyOps db ops).2, t = H) :
    (countEntries (applyOps db ops).1 H < 2 →
        runTransaction db ops = Except.error msgTooFewLines ∧
        commitState db ops = db) ∧
    (2 ≤ countEntries (applyOps db ops).1 H →
        sumAmounts (applyOps db ops).1 H ≠ 0 →
        runTransaction db ops = Except.error msgUnbalanced ∧
        commitState db ops = db) := by
  have hf := fireEvents_const (applyOps db ops).1 H (applyOps db ops).2 hne hall
  constructor
  · intro hcnt
    have hv : validate_transaction_entries (applyOps db ops).1 H =
        some msgTooFewLines := by
      simp [validate_transaction_entries, hcnt]
    have hrun : runTransaction db ops = Except.error msgTooFewLines := by
      rw [hv] at hf
      simp [runTransaction, hf]
    exact ⟨hrun, by simp [commitState, hrun]⟩
  · intro hcnt hsum
    have hv : validate_transaction_entries (applyOps db ops).1 H =
        some msgUnbalanced := by
      simp [validate_transaction_entries, Nat.not_lt.mpr hcnt, hsum]
    have hrun : runTransaction db ops = Except.error msgUnbalanced := by
      rw [hv] at hf
      simp [runTransaction, hf]
    exact ⟨hrun, by simp [commitState, hrun]⟩

/-- Witness for C3: a single +50 line for header 1 (count 1 < 2) is
rejected with the too-few-lines message and nothing persists; two lines
+100 and −90 (count 2, sum 10 ≠ 0) are rejected with the unbalanced
message and nothing persists. -/
theorem c3_commit_rejection_and_rollback_witness :
    (runTransaction DB.empty
        [Op.insertHeader ⟨1, 1⟩, Op.insertEntry ⟨1, 1, 1, 1, 50⟩] =
          Except.error msgTooFewLines ∧
      commitState DB.empty
        [Op.insertHeader ⟨1, 1⟩, Op.insertEntry ⟨1, 1, 1, 1, 50⟩] = DB.empty) ∧
    (runTransaction DB.empty
        [Op.insertHeader ⟨2, 1⟩, Op.insertEntry ⟨1, 2, 1, 1, 100⟩,
         Op.insertEntry ⟨2, 2, 1, 2, -90⟩] =
          Except.error msgUnbalanced ∧
      commitState DB.empty
        [Op.insertHeader ⟨2, 1⟩, Op.insertEntry ⟨1, 2, 1, 1, 100⟩,
         Op.insertEntry ⟨2, 2, 1, 2, -90⟩] = DB.empty) :=
  ⟨(c3_commit_rejection_and_rollback DB.empty
      [Op.insertHeader ⟨1, 1⟩, Op.insertEntry ⟨1, 1, 1, 1, 50⟩] 1
      (by norm_num [applyOps, applyOp, DB.empty])
      (by norm_num [applyOps, applyOp, DB.empty])).1
      (by norm_num [applyOps, applyOp, DB.empty, countEntries, entriesOf]),
   (c3_commit_rejection_and_rollback DB.empty
      [Op.insertHeader ⟨2, 1⟩, Op.insertEntry ⟨1, 2, 1, 1, 100⟩,
       Op.insertEntry ⟨2, 2, 1, 2, -90⟩] 2
      (by simp [applyOps, applyOp, DB.empty])
      (by norm_num [applyOps, applyOp, DB.empty])).2
      (by norm_num [applyOps, applyOp, DB.empty, countEntries, entriesOf])
      (by norm_num [applyOps, applyOp, DB.empty, sumAmounts, entriesOf])⟩

/-- C2: for a header whose stored line set is balanced, one ambient
transaction that first deletes all of the header's lines
(`DELETE ... WHERE transaction_id = H`) and then inserts a new set of
lines for it whose amounts sum to zero with count at least 2 commits
successfully: the transient zero-line state between the delete and the
inserts causes no rejection, because the deferred events are all checked
against the final state at commit time. -/
theorem c2_replace_all_lines_commits (db : DB) (H : Nat) (news : List EntryRow)
    (hold_sum : sumAmounts db H = 0) (hold_cnt : 2 ≤ countEntries db H)
    (hnews : ∀ e ∈ news, e.txId = H)
    (hsum : (news.map (fun e => e.amount)).sum = 0)
    (hcnt : 2 ≤ news.length) :
    runTransaction db (Op.deleteEntriesOfTx H :: news.map Op.insertEntry) =
      Except.ok { db with transaction_entries :=
        db.transaction_entries.filter (fun e => e.txId != H) ++ news } := by
  have hap : applyOps db (Op.deleteEntriesOfTx H :: news.map Op.insertEntry) =
      ({ db with transaction_entries :=
          db.transaction_entries.filter (fun e => e.txId != H) ++ news },
       (db.transaction_entries.filter (fun e => e.txId == H)).map (fun e => e.txId)
         ++ news.map (fun e => e.txId)) := by
    rw [applyOps_cons]
    simp only [applyOp, applyOps_inserts]
  have hentries : entriesOf
      ⟨db.transactions, db.transaction_entries.filter (fun e => e.txId != H) ++ news⟩
      H = news := by
    unfold entriesOf
    simp only [List.filter_append, filter_ne_then_eq, List.nil_append]
    exact List.filter_eq_self.mpr (fun e he => by simp [hnews e he])
  have hall : ∀ t ∈ (applyOps db (Op.deleteEntriesOfTx H :: news.map Op.insertEntry)).2,
      t = H := by
    rw [hap]
    intro t ht
    rcases List.mem_append.mp ht with h1 | h2
    · rcases List.mem_map.mp h1 with ⟨e, he, rfl⟩
      have := (List.mem_filter.mp he).2
      simpa using this
    · rcases List.mem_map.mp h2 with ⟨e, he, rfl⟩
      exact hnews e he
  have hsum2 : sumAmounts (applyOps db (Op.deleteEntriesOfTx H :: news.map Op.insertEntry)).1 H = 0 := by
    rw [hap]
    simpa [sumAmounts, hentries] using hsum
  have hcnt2 : 2 ≤ countEntries (applyOps db (Op.deleteEntriesOfTx H :: news.map Op.insertEntry)).1 H := by
    rw [hap]
    simpa [countEntries, hentries] using hcnt
  have := (commit_allowed_of_final_balance db
      (Op.deleteEntriesOfTx H :: news.map Op.insertEntry) H hall hsum2 hcnt2).2
  rw [hap] at this
  exact this

/-- Witness for C2: header 1 starts with the balanced pair +5/−5; one
transaction deletes both lines and inserts the balanced triple
+300, −150, −150; it commits with exactly the new lines stored. -/
theorem c2_replace_all_lines_commits_witness :
    runTransaction
        ⟨[⟨1, 1⟩], [⟨1, 1, 1, 1, 5⟩, ⟨2, 1, 1, 2, -5⟩]⟩
        (Op.deleteEntriesOfTx 1 ::
          ([⟨3, 1, 1, 1, 300⟩, ⟨4, 1, 1, 2, -150⟩, ⟨5, 1, 1, 3, -150⟩] :
            List EntryRow).map Op.insertEntry) =
      Except.ok ⟨[⟨1, 1⟩], [⟨3, 1, 1, 1, 300⟩, ⟨4, 1, 1, 2, -150⟩, ⟨5, 1, 1, 3, -150⟩]⟩ := by
  have h := c2_replace_all_lines_commits
    ⟨[⟨1, 1⟩], [⟨1, 1, 1, 1, 5⟩, ⟨2, 1, 1, 2, -5⟩]⟩ 1
    [⟨3, 1, 1, 1, 300⟩, ⟨4, 1, 1, 2, -150⟩, ⟨5, 1, 1, 3, -150⟩]
    (by norm_num [sumAmounts, entriesOf])
    (by norm_num [countEntries, entriesOf])
    (by intro e he; fin_cases he <;> rfl)
    (by norm_num)
    (by norm_num)
  simpa using h

/-- C10: the store and the commit-time check accept lines whose amount is
exactly zero — whenever an ambient transaction writes only header `H`'s
lines and `H`'s final line set has count at least 2 with every amount
equal to 0 (hence sum 0), the commit succeeds. Moreover no nonzero-amount
constraint and no two-decimal-scale constraint guards `amount` (the
column is an unconstrained `numeric`): a commit whose lines carry the
zero amount and the sub-cent amounts 1/200 and −1/200 also succeeds. -/
theorem c10_zero_amount_lines_allowed (db : DB) (ops : List Op) (H : Nat)
    (hall : ∀ t ∈ (applyOps db ops).2, t = H)
    (hzero : ∀ e ∈ entriesOf (applyOps db ops).1 H, e.amount = 0)
    (hcnt : 2 ≤ countEntries (applyOps db ops).1 H) :
    runTransaction db ops = Except.ok (applyOps db ops).1 ∧
    commitsOk DB.empty
      [Op.insertHeader ⟨1, 1⟩, Op.insertEntry ⟨1, 1, 1, 1, 0⟩,
       Op.insertEntry ⟨2, 1, 1, 2, 0⟩, Op.insertEntry ⟨3, 1, 1, 3, 1/200⟩,
       Op.insertEntry ⟨4, 1, 1, 4, -(1/200)⟩] = true := by
  constructor
  · have hsum : sumAmounts (applyOps db ops).1 H = 0 := by
      unfold sumAmounts
      apply List.sum_eq_zero
      intro x hx
      rcases List.mem_map.mp hx with ⟨e, he, rfl⟩
      exact hzero e he
    exact (commit_allowed_of_final_balance db ops H hall hsum hcnt).2
  · norm_num [commitsOk, runTransaction, applyOps, applyOp, fireEvents,
      validate_transaction_entries, countEntries, sumAmounts, entriesOf, DB.empty]

/-- Witness for C10: header 1 with two zero-amount lines commits. -/
theorem c10_zero_amount_lines_allowed_witness :
    runTransaction DB.empty
        [Op.insertHeader ⟨1, 1⟩, Op.insertEntry ⟨1, 1, 1, 1, 0⟩,
         Op.insertEntry ⟨2, 1, 1, 2, 0⟩] =
      Except.ok (applyOps DB.empty
        [Op.insertHeader ⟨1, 1⟩, Op.insertEntry ⟨1, 1, 1, 1, 0⟩,
         Op.insertEntry ⟨2, 1, 1, 2, 0⟩]).1 :=
  (c10_zero_amount_lines_allowed DB.empty
    [Op.insertHeader ⟨1, 1⟩, Op.insertEntry ⟨1, 1, 1, 1, 0⟩,
     Op.insertEntry ⟨2, 1, 1, 2, 0⟩] 1
    (by norm_num [applyOps, applyOp, DB.empty])
    (by intro e he; simp [applyOps, applyOp, DB.empty, entriesOf] at he
        rcases he with h | h <;> simp [h])
    (by norm_num [applyOps, applyOp, DB.empty, countEntries, entriesOf])).1

/-- Counterexample to C6: the constraint trigger is declared
`FOR EACH ROW`, so a bulk edit that deletes header 1's two lines and
reinserts two new ones queues four deferred checks — one per mutated
row — not exactly one for the single distinct affected header. -/
theorem c6_once_per_header_counterexample :
    (applyOps ⟨[⟨1, 1⟩], [⟨1, 1, 1, 1, 5⟩, ⟨2, 1, 1, 2, -5⟩]⟩
        [Op.deleteEntriesOfTx 1, Op.insertEntry ⟨3, 1, 1, 1, 3⟩,
         Op.insertEntry ⟨4, 1, 1, 2, -3⟩]).2 = [1, 1, 1, 1] ∧
    ((applyOps ⟨[⟨1, 1⟩], [⟨1, 1, 1, 1, 5⟩, ⟨2, 1, 1, 2, -5⟩]⟩
        [Op.deleteEntriesOfTx 1, Op.insertEntry ⟨3, 1, 1, 1, 3⟩,
         Op.insertEntry ⟨4, 1, 1, 2, -3⟩]).2.length = 1 → False) := by
  constructor
  · norm_num [applyOps, applyOp]
  · intro h
    rw [show (applyOps ⟨[⟨1, 1⟩], [⟨1, 1, 1, 1, 5⟩, ⟨2, 1, 1, 2, -5⟩]⟩
        [Op.deleteEntriesOfTx 1, Op.insertEntry ⟨3, 1, 1, 1, 3⟩,
         Op.insertEntry ⟨4, 1, 1, 2, -3⟩]).2 = [1, 1, 1, 1]
      from by norm_num [applyOps, applyOp]] at h
    simp at h

/-- C6 as amended: the checker runs once per mutated row, not once per
distinct affected header — a replace-all edit of header `H` queues one
deferred event per deleted row plus one per inserted row — but every
event fires after all mutations are visible and aggregates the same
final state, so the commit outcome is exactly that of a single check of
the header against the final state. -/
theorem c6_per_row_check_amended (db : DB) (H : Nat) (news : List EntryRow)
    (hnews : ∀ e ∈ news, e.txId = H) :
    (applyOps db (Op.deleteEntriesOfTx H :: news.map Op.insertEntry)).2.length =
        countEntries db H + news.length ∧
    (∀ t ∈ (applyOps db (Op.deleteEntriesOfTx H :: news.map Op.insertEntry)).2,
        t = H) ∧
    (fireEvents (applyOps db (Op.deleteEntriesOfTx H :: news.map Op.insertEntry)).1
          (applyOps db (Op.deleteEntriesOfTx H :: news.map Op.insertEntry)).2 = none ↔
      ((applyOps db (Op.deleteEntriesOfTx H :: news.map Op.insertEntry)).2 = [] ∨
        validate_transaction_entries
          (applyOps db (Op.deleteEntriesOfTx H :: news.map Op.insertEntry)).1 H =
            none)) := by
  have hap : applyOps db (Op.deleteEntriesOfTx H :: news.map Op.insertEntry) =
      ({ db with transaction_entries :=
          db.transaction_entries.filter (fun e => e.txId != H) ++ news },
       (db.transaction_entries.filter (fun e => e.txId == H)).map (fun e => e.txId)
         ++ news.map (fun e => e.txId)) := by
    rw [applyOps_cons]
    simp only [applyOp, applyOps_inserts]
  have hall : ∀ t ∈ (applyOps db (Op.deleteEntriesOfTx H :: news.map Op.insertEntry)).2,
      t = H := by
    rw [hap]
    intro t ht
    rcases List.mem_append.mp ht with h1 | h2
    · rcases List.mem_map.mp h1 with ⟨e, he, rfl⟩
      have := (List.mem_filter.mp he).2
      simpa using this
    · rcases List.mem_map.mp h2 with ⟨e, he, rfl⟩
      exact hnews e he
  refine ⟨?_, hall, ?_⟩
  · rw [hap]
    simp [countEntries, entriesOf]
  · exact fireEvents_none_iff_of_const _ H _ hall

/-- Witness for C6's amended statement: replacing header 1's two stored
lines with the pair +3/−3 queues 2 + 2 = 4 events, all naming header 1,
and the queue passes iff the single final-state check of header 1 does. -/
theorem c6_per_row_check_amended_witness :
    (applyOps ⟨[⟨1, 1⟩], [⟨1, 1, 1, 1, 5⟩, ⟨2, 1, 1, 2, -5⟩]⟩
        (Op.deleteEntriesOfTx 1 ::
          ([⟨3, 1, 1, 1, 3⟩, ⟨4, 1, 1, 2, -3⟩] : List EntryRow).map
            Op.insertEntry)).2.length =
      countEntries ⟨[⟨1, 1⟩], [⟨1, 1, 1, 1, 5⟩, ⟨2, 1, 1, 2, -5⟩]⟩ 1 + 2 :=
  (c6_per_row_check_amended ⟨[⟨1, 1⟩], [⟨1, 1, 1, 1, 5⟩, ⟨2, 1, 1, 2, -5⟩]⟩ 1
    [⟨3, 1, 1, 1, 3⟩, ⟨4, 1, 1, 2, -3⟩]
    (by intro e he; fin_cases he <;> rfl)).1

/-- C7, evaluated at the failing input: header 1 with the balanced pair
+5/−5 is reachable (the insert transaction commits), but the single
statement `DELETE FROM transactions WHERE id = 1` does NOT commit — the
cascade removes both entry rows, each cascaded delete queues a deferred
event for header 1, and at commit the header has zero remaining lines,
so the trigger raises the too-few-lines exception and the whole delete
is rolled back: the header and its entries persist. -/
theorem c7_delete_header_rejected :
    runTransaction DB.empty
        [Op.insertHeader ⟨1, 1⟩, Op.insertEntry ⟨1, 1, 1, 1, 5⟩,
         Op.insertEntry ⟨2, 1, 1, 2, -5⟩] =
      Except.ok ⟨[⟨1, 1⟩], [⟨1, 1, 1, 1, 5⟩, ⟨2, 1, 1, 2, -5⟩]⟩ ∧
    runTransaction ⟨[⟨1, 1⟩], [⟨1, 1, 1, 1, 5⟩, ⟨2, 1, 1, 2, -5⟩]⟩
        [Op.deleteHeader 1] =
      Except.error msgTooFewLines ∧
    commitState ⟨[⟨1, 1⟩], [⟨1, 1, 1, 1, 5⟩, ⟨2, 1, 1, 2, -5⟩]⟩
        [Op.deleteHeader 1] =
      ⟨[⟨1, 1⟩], [⟨1, 1, 1, 1, 5⟩, ⟨2, 1, 1, 2, -5⟩]⟩ := by
  refine ⟨?_, ?_, ?_⟩ <;>
    norm_num [runTransaction, commitState, applyOps, applyOp, fireEvents,
      validate_transaction_entries, countEntries, sumAmounts, entriesOf, DB.empty]

/-- C1, evaluated at the failing input: the trigger validates only
`NEW.transaction_id` on UPDATE, so moving a line to another header never
re-validates the header it left. Starting from the committed state with
headers 1 and 2 holding the balanced pairs +5/−5 and +7/−7, the single
statement `UPDATE transaction_entries SET transaction_id = 2, amount = 0
WHERE id = 1` commits (header 2's final set 0, +7, −7 passes), leaving a
committed, reachable state in which header 1 exists, has exactly one
entry, and that entry sums to −5 — the core invariant is violated. -/
theorem c1_committed_invariant_violated :
    ∃ db : DB, Reachable db ∧ ¬ balancedInvariant db := by
  have h1 : commitState DB.empty
      [Op.insertHeader ⟨1, 1⟩, Op.insertHeader ⟨2, 1⟩,
       Op.insertEntry ⟨1, 1, 1, 1, 5⟩, Op.insertEntry ⟨2, 1, 1, 2, -5⟩,
       Op.insertEntry ⟨3, 2, 1, 3, 7⟩, Op.insertEntry ⟨4, 2, 1, 4, -7⟩] =
      ⟨[⟨1, 1⟩, ⟨2, 1⟩],
       [⟨1, 1, 1, 1, 5⟩, ⟨2, 1, 1, 2, -5⟩, ⟨3, 2, 1, 3, 7⟩, ⟨4, 2, 1, 4, -7⟩]⟩ := by
    norm_num [commitState, runTransaction, applyOps, applyOp, fireEvents,
      validate_transaction_entries, countEntries, sumAmounts, entriesOf, DB.empty]
  have h2 : commitState
      ⟨[⟨1, 1⟩, ⟨2, 1⟩],
       [⟨1, 1, 1, 1, 5⟩, ⟨2, 1, 1, 2, -5⟩, ⟨3, 2, 1, 3, 7⟩, ⟨4, 2, 1, 4, -7⟩]⟩
      [Op.updateEntry 1 2 1 1 0] =
      ⟨[⟨1, 1⟩, ⟨2, 1⟩],
       [⟨1, 2, 1, 1, 0⟩, ⟨2, 1, 1, 2, -5⟩, ⟨3, 2, 1, 3, 7⟩, ⟨4, 2, 1, 4, -7⟩]⟩ := by
    norm_num [commitState, runTransaction, applyOps, applyOp, fireEvents,
      validate_transaction_entries, countEntries, sumAmounts, entriesOf]
  refine ⟨commitState (commitState DB.empty
      [Op.insertHeader ⟨1, 1⟩, Op.insertHeader ⟨2, 1⟩,
       Op.insertEntry ⟨1, 1, 1, 1, 5⟩, Op.insertEntry ⟨2, 1, 1, 2, -5⟩,
       Op.insertEntry ⟨3, 2, 1, 3, 7⟩, Op.insertEntry ⟨4, 2, 1, 4, -7⟩])
      [Op.updateEntry 1 2 1 1 0],
    Reachable.step _ _ (Reachable.step DB.empty _ Reachable.init), ?_⟩
  rw [h1, h2]
  intro hinv
  have hcount : countEntries
      ⟨[⟨1, 1⟩, ⟨2, 1⟩],
       [⟨1, 2, 1, 1, 0⟩, ⟨2, 1, 1, 2, -5⟩, ⟨3, 2, 1, 3, 7⟩, ⟨4, 2, 1, 4, -7⟩]⟩ 1 = 1 := by
    norm_num [countEntries, entriesOf]
  have := hinv ⟨1, 1⟩ (by simp) (by rw [hcount])
  rw [hcount] at this
  exact absurd this.2 (by norm_num)

/-- Counterexample to C5, at a concrete state with a `company_users` row
linking user 7 to company 1 and a global `user_roles` admin grant for
user 9 (who has no membership): the claimed decision — true iff
membership or global admin — disagrees with the code's decision at both
principals, because the only policy on `transaction_entries` carries no
`has_role` bypass and is declared RESTRICTIVE with no permissive policy
beside it, so the effective decision is false even for the member. -/
theorem c5_access_decision_counterexample :
    transaction_entries_access
        ⟨[⟨1, 7, AppRole.collaborator⟩], [⟨9, AppRole.admin⟩]⟩ 7 1 ≠
      canAccess_spec ⟨[⟨1, 7, AppRole.collaborator⟩], [⟨9, AppRole.admin⟩]⟩ 7 1 ∧
    transaction_entries_access
        ⟨[⟨1, 7, AppRole.collaborator⟩], [⟨9, AppRole.admin⟩]⟩ 9 1 ≠
      canAccess_spec ⟨[⟨1, 7, AppRole.collaborator⟩], [⟨9, AppRole.admin⟩]⟩ 9 1 := by
  decide

/-- C5 as amended: the policy expression on `transaction_entries` is true
iff a `company_users` row links the principal to the row's tenant (any
role) — it consults no global admin capability — and, because that sole
policy is declared AS RESTRICTIVE and the table has no permissive
policy, the effective row-level decision is false for every principal;
in particular a principal with neither membership nor the global admin
capability can read or write no `transaction_entries` row. -/
theorem c5_access_decision_amended (s : AccessDB) (userId companyId : Nat) :
    transaction_entries_access s userId companyId = false ∧
    (companyMembersManageEntries s userId companyId = true ↔
      ∃ cu ∈ s.company_users, cu.companyId = companyId ∧ cu.userId = userId) := by
  constructor
  · simp [transaction_entries_access, rlsAllows]
  · simp [companyMembersManageEntries, List.any_eq_true]

/-- Counterexample to C8: the two exceptions raised by
`validate_transaction_entries` are fixed message strings. Two unbalanced
commits with different offending headers (1 with sum 10, 2 with sum 7)
surface byte-identical failures, and so do two too-few-lines commits
with different offending headers, so the failure carries neither the
header id nor the sum. -/
theorem c8_structured_failure_counterexample :
    runTransaction DB.empty
        [Op.insertHeader ⟨1, 1⟩, Op.insertEntry ⟨1, 1, 1, 1, 100⟩,
         Op.insertEntry ⟨2, 1, 1, 2, -90⟩] =
      Except.error msgUnbalanced ∧
    runTransaction DB.empty
        [Op.insertHeader ⟨2, 1⟩, Op.insertEntry ⟨1, 2, 1, 1, 5⟩,
         Op.insertEntry ⟨2, 2, 1, 2, -3⟩, Op.insertEntry ⟨3, 2, 1, 3, 5⟩] =
      Except.error msgUnbalanced ∧
    runTransaction DB.empty
        [Op.insertHeader ⟨1, 1⟩, Op.insertEntry ⟨1, 1, 1, 1, 50⟩] =
      runTransaction DB.empty
        [Op.insertHeader ⟨2, 1⟩, Op.insertEntry ⟨1, 2, 1, 1, 8⟩] := by
  refine ⟨?_, ?_, ?_⟩ <;>
    norm_num [runTransaction, applyOps, applyOp, fireEvents,
      validate_transaction_entries, countEntries, sumAmounts, entriesOf, DB.empty]

/-- C8 as amended: the failure surfaced at commit time distinguishes the
too-few-lines case from the unbalanced case through two distinct fixed
messages, but it is not structured — every rejected commit surfaces one
of the two constant strings, naming neither the offending header nor the
non-zero sum. -/
theorem c8_failure_messages_amended (db : DB) (ops : List Op) :
    msgTooFewLines ≠ msgUnbalanced ∧
    (runTransaction db ops = Except.ok (applyOps db ops).1 ∨
     runTransaction db ops = Except.error msgTooFewLines ∨
     runTransaction db ops = Except.error msgUnbalanced) := by
  refine ⟨by decide, ?_⟩
  have hcases : ∀ l : List Nat, ∀ d : DB,
      fireEvents d l = none ∨ fireEvents d l = some msgTooFewLines ∨
      fireEvents d l = some msgUnbalanced := by
    intro l d
    induction l with
    | nil => exact Or.inl rfl
    | cons t ts ih =>
      rw [fireEvents_cons]
      unfold validate_transaction_entries
      by_cases h1 : countEntries d t < 2
      · simp [h1]
      · by_cases h2 : sumAmounts d t ≠ 0
        · simp [h1, h2]
        · simpa [h1, h2] using ih
  rcases hcases (applyOps db ops).2 (applyOps db ops).1 with h | h | h <;>
    simp [runTransaction, h]

/-- Counterexample to C9: nothing in the schema or triggers ties an
entry's denormalized `company_id` to its header's: a transaction
inserting header 1 owned by company 1 together with two balanced lines
whose `company_id` is 2 commits, producing a committed state whose
entries disagree with their header's tenant. -/
theorem c9_denormalized_tenant_counterexample :
    runTransaction DB.empty
        [Op.insertHeader ⟨1, 1⟩, Op.insertEntry ⟨1, 1, 2, 1, 5⟩,
         Op.insertEntry ⟨2, 1, 2, 2, -5⟩] =
      Except.ok ⟨[⟨1, 1⟩], [⟨1, 1, 2, 1, 5⟩, ⟨2, 1, 2, 2, -5⟩]⟩ ∧
    (⟨1, 1, 2, 1, 5⟩ : EntryRow).txId = (⟨1, 1⟩ : TransactionRow).id ∧
    (⟨1, 1, 2, 1, 5⟩ : EntryRow).companyId ≠ (⟨1, 1⟩ : TransactionRow).companyId := by
  refine ⟨?_, rfl, by norm_num⟩
  norm_num [runTransaction, applyOps, applyOp, fireEvents,
    validate_transaction_entries, countEntries, sumAmounts, entriesOf, DB.empty]

/-- C9 as amended: the write surface itself does not enforce the
consistency — the tenant id of each line is supplied by the client — but
the app's create path derives both the header's and every line's
`company_id` from the one current company, so states written through it
keep every line of the new header on its header's tenant. -/
theorem c9_app_create_path_amended (db : DB) (company hid : Nat)
    (lines : List (Nat × Rat)) (hfresh : countEntries db hid = 0) :
    ({ id := hid, companyId := company } : TransactionRow) ∈
      (applyOps db (onSubmitCreateOps company hid lines)).1.transactions ∧
    ∀ e ∈ (applyOps db (onSubmitCreateOps company hid lines)).1.transaction_entries,
      e.txId = hid → e.companyId = company := by
  have hform : onSubmitCreateOps company hid lines =
      Op.insertHeader ⟨hid, company⟩ ::
        ((lines.enum.map (fun p =>
          (⟨p.1, hid, company, p.2.1, p.2.2⟩ : EntryRow))).map Op.insertEntry) := by
    simp [onSubmitCreateOps, List.map_map]
  have hap : applyOps db (onSubmitCreateOps company hid lines) =
      (⟨db.transactions ++ [⟨hid, company⟩],
        db.transaction_entries ++
          lines.enum.map (fun p => (⟨p.1, hid, company, p.2.1, p.2.2⟩ : EntryRow))⟩,
       (lines.enum.map (fun p =>
         (⟨p.1, hid, company, p.2.1, p.2.2⟩ : EntryRow))).map (fun e => e.txId)) := by
    rw [hform, applyOps_cons]
    simp only [applyOp, applyOps_inserts, List.nil_append]
  rw [hap]
  constructor
  · simp
  · intro e he htx
    rcases List.mem_append.mp he with h1 | h2
    · exfalso
      have hnil : entriesOf db hid = [] :=
        List.eq_nil_of_length_eq_zero hfresh
      have hmem : e ∈ entriesOf db hid :=
        List.mem_filter.mpr ⟨h1, by simp [htx]⟩
      rw [hnil] at hmem
      cases hmem
    · rcases List.mem_map.mp h2 with ⟨p, hp, rfl⟩
      rfl

/-- Witness for C9's amended statement: creating a transaction for
company 1 with the lines +5/−5 through the app's create path, over the
empty database, stores a header carrying the current company's id. -/
theorem c9_app_create_path_amended_witness :
    ({ id := 1, companyId := 1 } : TransactionRow) ∈
      (applyOps DB.empty (onSubmitCreateOps 1 1 [(1, 5), (2, -5)])).1.transactions :=
  (c9_app_create_path_amended DB.empty 1 1 [(1, 5), (2, -5)]
    (by norm_num [countEntries, entriesOf, DB.empty])).1
